import Mathlib

/-!
Shallow embedding of the recipe-app-api repository (Django REST Framework
application, `app/recipe/views.py` and `app/recipe/serializers.py`, together
with the data model those modules operate on).

Modelling conventions:
* A database is a record of lists of rows (`Tag`, `Recipe`); the ORM's
  query-set operations become list operations.
* `Recipe.tags` is the many-to-many association, held as the list of tag ids;
  Django's `m2m.add` is idempotent, `m2m.clear` empties the association.
* `price` is a fixed-precision decimal in the source; it is carried here as a
  scaled integer (no claim computes with it).
* Python `int(...)` conversion of a query-string token is `pyInt`: it strips
  surrounding whitespace, accepts an optional sign followed by digits, and
  fails (`none`, the `ValueError`) otherwise.
* SQL `JOIN` duplication from `filter(tags__id__in=...)` is modelled
  explicitly (one copy of the recipe per matching tag), so that the trailing
  `.distinct()` in the source is observable.
-/

/-- A `core.models.Tag` row: `id`, owning `user` (by id), and `name`. -/
structure Tag where
  id : Nat
  user : Nat
  name : String
deriving DecidableEq, Repr

/-- A `core.models.Recipe` row.  `tags` is the many-to-many association with
`Tag`, as the list of associated tag ids. -/
structure Recipe where
  id : Nat
  user : Nat
  title : String
  time_minutes : Nat
  price : Int
  link : String
  description : String
  image : Option String
  tags : List Nat
deriving DecidableEq, Repr

/-- The relational store backing the recipe app. `nextTagId` is the
auto-increment counter for the tag table. -/
structure DB where
  tags : List Tag
  recipes : List Recipe
  nextTagId : Nat
deriving DecidableEq, Repr

/-- Well-formedness of the store: primary keys are unique in each table. -/
def DB.WF (db : DB) : Prop :=
  (db.recipes.map Recipe.id).Nodup ∧ (db.tags.map Tag.id).Nodup

instance (db : DB) : Decidable db.WF := by
  unfold DB.WF; infer_instance

/-- Django's idempotent many-to-many `recipe.tags.add(tag)`: a no-op when the
association already exists. -/
def Recipe.addTag (r : Recipe) (tid : Nat) : Recipe :=
  if tid ∈ r.tags then r else { r with tags := r.tags ++ [tid] }

/-- `Tag.objects.get_or_create(user=auth_user, name=name)`: return the first
row matching `(user, name)`, or insert a fresh row with the next id. -/
def Tag.getOrCreate (db : DB) (u : Nat) (n : String) : DB × Nat :=
  match db.tags.find? (fun t => t.user == u && t.name == n) with
  | some t => (db, t.id)
  | none =>
      let t : Tag := ⟨db.nextTagId, u, n⟩
      ({ db with tags := db.tags ++ [t], nextTagId := db.nextTagId + 1 }, t.id)

/-- `RecipeSerializer._get_or_create_tags(tags, recipe)`: for each tag spec
(a name), resolve via `get_or_create` and `recipe.tags.add` the result. -/
def getOrCreateTags (db : DB) (u : Nat) (specs : List String) (r : Recipe) :
    DB × Recipe :=
  match specs with
  | [] => (db, r)
  | n :: rest =>
      let p := Tag.getOrCreate db u n
      getOrCreateTags p.1 u rest (r.addTag p.2)

/-- The sequence of tag ids that `_get_or_create_tags` resolves from the given
specs (one id per spec, in order, threading the store). -/
def resolveIds (db : DB) (u : Nat) (specs : List String) : List Nat :=
  match specs with
  | [] => []
  | n :: rest =>
      let p := Tag.getOrCreate db u n
      p.2 :: resolveIds p.1 u rest

/-- Generic insertion step for `order_by`: place `a` before the first element
`x` with `le a x`. -/
def insertLe {α : Type} (le : α → α → Bool) (a : α) : List α → List α
  | [] => [a]
  | x :: xs => if le a x then a :: x :: xs else x :: insertLe le a xs

/-- Insertion sort used to model the ORM's `order_by`. -/
def sortLe {α : Type} (le : α → α → Bool) : List α → List α
  | [] => []
  | x :: xs => insertLe le x (sortLe le xs)

/-- `order_by('-id')` on a recipe query set. -/
def sortByIdDesc (l : List Recipe) : List Recipe :=
  sortLe (fun a b => b.id ≤ a.id) l

/-- Lexicographic comparison of character lists by code point (the order
`order_by('name')` uses), written out so it evaluates by kernel reduction. -/
def charListLt : List Char → List Char → Bool
  | [], [] => false
  | [], _ :: _ => true
  | _ :: _, [] => false
  | a :: as, b :: bs =>
      if a.toNat < b.toNat then true
      else if b.toNat < a.toNat then false
      else charListLt as bs

/-- String comparison over the underlying characters. -/
def strLt (a b : String) : Bool :=
  charListLt a.data b.data

/-- `order_by('-name')` on a tag query set. -/
def sortByNameDesc (l : List Tag) : List Tag :=
  sortLe (fun a b => !(strLt a.name b.name)) l

/-- `.distinct()`: one copy of every row (keeping the last occurrence; with
rows sorted, duplicates are adjacent, so which copy survives is immaterial). -/
def distinct {α : Type} [DecidableEq α] : List α → List α
  | [] => []
  | x :: xs => if x ∈ xs then distinct xs else x :: distinct xs

/-- Python `str.split(',')` over the string's characters: cut at every comma,
keeping empty pieces, as CPython does. -/
def commaSplit : List Char → List Char → List (List Char)
  | [], acc => [acc.reverse]
  | c :: cs, acc =>
      if c = ',' then acc.reverse :: commaSplit cs []
      else commaSplit cs (c :: acc)

/-- Python `int(token)` on a query-string token: strip surrounding
whitespace, allow one optional sign, then require digits; `none` is the
raised `ValueError`.  (CPython's extra digit-group underscores and non-ASCII
digits are not modelled; no claim depends on such tokens.) -/
def pyIntTok (tok : List Char) : Option Int :=
  let t := (((tok.dropWhile Char.isWhitespace).reverse).dropWhile
    Char.isWhitespace).reverse
  let signed : Int × List Char :=
    match t with
    | '-' :: rest => (-1, rest)
    | '+' :: rest => (1, rest)
    | _ => (1, t)
  match signed.2 with
  | [] => none
  | ds =>
      if ds.all Char.isDigit then
        some (signed.1 *
          ((ds.foldl (fun acc c => acc * 10 + (c.toNat - 48)) 0 : Nat) : Int))
      else none

/-- Python `int(s)` on a string. -/
def pyInt (s : String) : Option Int :=
  pyIntTok s.data

/-- `RecipeViewSet._params_to_int_list(qs)`:
`[int(str_id) for str_id in qs.split(',')]`; the first unparseable token
raises (`none`). -/
def paramsToIntList (qs : String) : Option (List Int) :=
  (commaSplit qs.data []).mapM pyIntTok

/-- `RecipeViewSet.get_queryset`: start from all recipes; when the `tags`
query parameter is truthy, parse it to ids (an unparseable token raises, here
`none`) and apply `filter(tags__id__in=tag_ids)` with its `JOIN` duplication;
finally `filter(user=request.user).order_by('-id').distinct()`. -/
def recipeQueryset (db : DB) (u : Nat) (tagsParam : Option String) :
    Option (List Recipe) :=
  let base := db.recipes
  let joined : Option (List Recipe) :=
    match tagsParam with
    | some s =>
        if s ≠ "" then
          match paramsToIntList s with
          | none => none
          | some ids =>
              some (base.flatMap fun r =>
                (r.tags.filter (fun t : Nat => (t : Int) ∈ ids)).map fun _ => r)
        else some base
    | none => some base
  match joined with
  | none => none
  | some l => some (distinct (sortByIdDesc (l.filter (fun r => r.user == u))))

/-- `TagViewSet.get_queryset`: `filter(user=request.user).order_by('-name')`.
Note the source reads no query parameter here: an `assigned_only` parameter on
the request is ignored. -/
def tagQueryset (db : DB) (u : Nat) : List Tag :=
  sortByNameDesc (db.tags.filter (fun t => t.user == u))

/-- Tag listing as the client sees it for a request carrying query
parameters: `TagViewSet` never consults them, so the result is
`tagQueryset` regardless of `assigned_only`. -/
def tagList (db : DB) (u : Nat) (_assignedOnlyParam : Option String) :
    List Tag :=
  tagQueryset db u

/-- Detail-route object lookup (`self.get_object()` over the owner-scoped
query set): the row with the requested primary key belonging to the caller,
else the 404 `none` — a foreign owner's id gives the same `none` as a missing
id. -/
def getRecipe (db : DB) (u : Nat) (rid : Nat) : Option Recipe :=
  (db.recipes.filter (fun r => r.user == u)).find? (fun r => r.id == rid)

/-- A scalar field value in a deserialized payload (`validated_data`). -/
inductive FieldVal where
  | s (v : String)
  | n (v : Nat)
  | i (v : Int)
deriving DecidableEq, Repr

/-- Python `setattr(instance, attr, value)` for the recipe scalar fields the
serializers expose (`id` is read-only and never in `validated_data`). -/
def setAttr (r : Recipe) (attr : String) (v : FieldVal) : Recipe :=
  match attr, v with
  | "title", .s x => { r with title := x }
  | "time_minutes", .n x => { r with time_minutes := x }
  | "price", .i x => { r with price := x }
  | "link", .s x => { r with link := x }
  | "description", .s x => { r with description := x }
  | _, _ => r

/-- Read back a scalar attribute, for stating frame properties of the
`setattr` loop. -/
def getAttr (r : Recipe) (attr : String) : Option FieldVal :=
  match attr with
  | "title" => some (.s r.title)
  | "time_minutes" => some (.n r.time_minutes)
  | "price" => some (.i r.price)
  | "link" => some (.s r.link)
  | "description" => some (.s r.description)
  | _ => none

/-- A deserialized update payload: the optional nested `tags` list (each spec
a name) and the remaining `validated_data` items as the dict's key/value
sequence. -/
structure UpdatePayload where
  tagSpecs : Option (List String)
  scalars : List (String × FieldVal)
deriving Repr

/-- `RecipeSerializer.update(instance, validated_data)`: pop `tags`; when
present, `instance.tags.clear()` then `_get_or_create_tags`; then
`setattr` for every remaining item; one `instance.save()`.  The returned
`Nat` counts the `save` calls. -/
def RecipeSerializer.update (db : DB) (u : Nat) (inst : Recipe)
    (vd : UpdatePayload) : DB × Recipe × Nat :=
  let p :=
    match vd.tagSpecs with
    | some specs => getOrCreateTags db u specs { inst with tags := [] }
    | none => (db, inst)
  let r := vd.scalars.foldl (fun r kv => setAttr r kv.1 kv.2) p.2
  (p.1, r, 1)

/-- `RecipeSerializer.create(validated_data)`: pop `tags` (default `[]`),
create the recipe row bound to the authenticated user, then
`_get_or_create_tags`. -/
def RecipeSerializer.create (db : DB) (u : Nat)
    (tagSpecs : Option (List String)) (base : Recipe) : DB × Recipe :=
  let specs := tagSpecs.getD []
  let row := { base with user := u, tags := [] }
  getOrCreateTags db u specs row

/-- An uploaded file as the image field sees it: `decodable` abstracts the
framework's image-decoding validation (external to this repository), `ref`
the stored file reference. -/
structure ImageFile where
  decodable : Bool
  ref : String
deriving DecidableEq, Repr

/-- Outcome of the `upload-image` action. -/
inductive UploadResult where
  | ok (recipe : Recipe)
  | badRequest
  | notFound
deriving DecidableEq, Repr

/-- Write an updated row back to the recipe table (`instance.save()`). -/
def DB.saveRecipe (db : DB) (r : Recipe) : DB :=
  { db with recipes := db.recipes.map fun x => if x.id == r.id then r else x }

/-- `RecipeViewSet.upload_image`: `get_object()`, validate the payload with
`RecipeImageSerializer` (the `image` field is required and must decode), then
either save and answer 200 with the updated representation, or answer 400
leaving the row untouched. -/
def uploadImage (db : DB) (u : Nat) (rid : Nat) (payload : Option ImageFile) :
    UploadResult × DB :=
  match getRecipe db u rid with
  | none => (.notFound, db)
  | some r =>
      match payload with
      | some img =>
          if img.decodable then
            let r2 := { r with image := some img.ref }
            (.ok r2, db.saveRecipe r2)
          else (.badRequest, db)
      | none => (.badRequest, db)

/-- `RecipeSerializer.Meta.fields`. -/
def RecipeSerializer.fields : List String :=
  ["id", "title", "time_minutes", "price", "link", "tags"]

/-- `RecipeDetailSerializer.Meta.fields = RecipeSerializer.Meta.fields +
['description', 'image']`. -/
def RecipeDetailSerializer.fields : List String :=
  RecipeSerializer.fields ++ ["description", "image"]

/-- `RecipeImageSerializer.Meta.fields`. -/
def RecipeImageSerializer.fields : List String :=
  ["id", "image"]

/-- `RecipeViewSet.get_serializer_class`, as the field list of the chosen
serializer: `RecipeSerializer` for `list`, `RecipeImageSerializer` for
`upload_image`, `RecipeDetailSerializer` otherwise. -/
def serializerFieldsFor (action : String) : List String :=
  if action == "list" then RecipeSerializer.fields
  else if action == "upload_image" then RecipeImageSerializer.fields
  else RecipeDetailSerializer.fields

/-- A user row of the credential store. -/
structure UserRec where
  email : String
  name : String
  hashedPassword : String
deriving DecidableEq, Repr

/-- The single outward error class of a failed registration. -/
inductive RegError where
  | validationError
deriving DecidableEq, Repr

/-- Modelled from the spec: the user app's `createUser` (its serializer and
manager live outside `src/`, only their tests are present).  Per the spec:
email is lower-cased; creation "fails with ValidationError when email
malformed, empty, or already registered, or password shorter than minimum
length (5 chars)"; hashing is an external collaborator, abstracted by a
tagging function. -/
def createUser (store : List UserRec) (email password name : String) :
    Except RegError (List UserRec × UserRec) :=
  let e := email.toLower
  if e = "" then .error .validationError
  else if ¬ e.contains ('@') then .error .validationError
  else if store.any (fun u => u.email == e) then .error .validationError
  else if password.length < 5 then .error .validationError
  else
    let u : UserRec := ⟨e, name, "hash:" ++ password⟩
    .ok (store ++ [u], u)

/-- The credential store after a registration attempt: unchanged when the
attempt fails. -/
def storeAfterRegister (store : List UserRec) (email password name : String) :
    List UserRec :=
  match createUser store email password name with
  | .ok p => p.1
  | .error _ => store

/-- Detail-route object lookup for tags (used by the update/destroy mixins):
owner-scoped, so a foreign owner's tag id yields the 404 `none`. -/
def getTag (db : DB) (u : Nat) (tid : Nat) : Option Tag :=
  (db.tags.filter (fun t => t.user == u)).find? (fun t => t.id == tid)

/-- Keys of the writable scalar recipe fields. -/
def scalarKeys : List String :=
  ["title", "time_minutes", "price", "link", "description"]

/-- Whether a `validated_data` item is well typed for its key (what the
serializer's field validation guarantees before `update` runs). -/
def wellTyped : String → FieldVal → Bool
  | "title", .s _ => true
  | "time_minutes", .n _ => true
  | "price", .i _ => true
  | "link", .s _ => true
  | "description", .s _ => true
  | _, _ => false

/-- Concrete store used by witnesses: two users (0 and 1), each with one tag
and one recipe carrying that tag. -/
def Wtag1 : Tag := ⟨0, 0, "breakfast"⟩

/-- Second user's tag in the witness store. -/
def Wtag2 : Tag := ⟨1, 1, "fruity"⟩

/-- First user's recipe in the witness store (carries tag 0). -/
def Wrec1 : Recipe :=
  ⟨0, 0, "Sample recipe", 16, 316, "http://example.com/recipe.pdf",
   "Sample description", none, [0]⟩

/-- Second user's recipe in the witness store (carries tag 1). -/
def Wrec2 : Recipe := ⟨1, 1, "Other recipe", 5, 100, "", "", none, [1]⟩

/-- The witness store. -/
def Wdb : DB := ⟨[Wtag1, Wtag2], [Wrec1, Wrec2], 2⟩

/-- The store of the failing `assigned_only` scenario, mirroring
`test_filter_tags_assigned_to_recipes`: user 0 owns tags `breakfast` (id 0,
on one recipe) and `lunch` (id 1, on no recipe). -/
def C1tagBreakfast : Tag := ⟨0, 0, "breakfast"⟩

/-- The unassigned tag of the failing scenario. -/
def C1tagLunch : Tag := ⟨1, 0, "lunch"⟩

/-- The one recipe of the failing scenario; it carries only tag 0. -/
def C1recipe : Recipe := ⟨0, 0, "Eggs on toast", 10, 500, "", "", none, [0]⟩

/-- The failing-scenario store. -/
def C1db : DB := ⟨[C1tagBreakfast, C1tagLunch], [C1recipe], 1⟩

/-- What the spec asks of the assigned-only tag listing (stated from the
spec's words, for comparison with `tagList`): the owner's tags referenced by
at least one of the owner's recipes, without duplicates. -/
def assignedOnlyTagsSpec (db : DB) (u : Nat) : List Tag :=
  distinct (sortByNameDesc ((db.tags.filter (fun t => t.user == u)).filter
    (fun t => db.recipes.any (fun r => r.user == u && r.tags.contains t.id))))

theorem mem_insertLe {α : Type} (le : α → α → Bool) (a x : α) (l : List α) :
    x ∈ insertLe le a l ↔ x = a ∨ x ∈ l := by
  induction l with
  | nil => simp [insertLe]
  | cons y ys ih =>
      simp only [insertLe]
      by_cases h : le a y = true
      · simp [h]
      · simp only [if_neg h, List.mem_cons, ih]
        tauto

theorem mem_sortLe {α : Type} (le : α → α → Bool) (x : α) (l : List α) :
    x ∈ sortLe le l ↔ x ∈ l := by
  induction l with
  | nil => simp [sortLe]
  | cons y ys ih =>
      simp only [sortLe, mem_insertLe, List.mem_cons, ih]

theorem pairwise_insertLe {α : Type} (le : α → α → Bool)
    (htot : ∀ a b, le a b = true ∨ le b a = true)
    (htr : ∀ a b c, le a b = true → le b c = true → le a c = true)
    (a : α) (l : List α) (h : l.Pairwise (fun x y => le x y = true)) :
    (insertLe le a l).Pairwise (fun x y => le x y = true) := by
  induction l with
  | nil => simp [insertLe]
  | cons y ys ih =>
      simp only [insertLe]
      rcases List.pairwise_cons.mp h with ⟨hy, hys⟩
      by_cases hay : le a y = true
      · rw [if_pos hay]
        refine List.pairwise_cons.mpr ⟨?_, h⟩
        intro z hz
        rcases List.mem_cons.mp hz with rfl | hz
        · exact hay
        · exact htr a y z hay (hy z hz)
      · have hya : le y a = true := (htot a y).resolve_left hay
        rw [if_neg hay]
        refine List.pairwise_cons.mpr ⟨?_, ih hys⟩
        intro z hz
        rcases (mem_insertLe le a z ys).mp hz with rfl | hz
        · exact hya
        · exact hy z hz

theorem pairwise_sortLe {α : Type} (le : α → α → Bool)
    (htot : ∀ a b, le a b = true ∨ le b a = true)
    (htr : ∀ a b c, le a b = true → le b c = true → le a c = true)
    (l : List α) :
    (sortLe le l).Pairwise (fun x y => le x y = true) := by
  induction l with
  | nil => simp [sortLe]
  | cons y ys ih => exact pairwise_insertLe le htot htr y (sortLe le ys) ih

theorem mem_distinct {α : Type} [DecidableEq α] (x : α) (l : List α) :
    x ∈ distinct l ↔ x ∈ l := by
  induction l with
  | nil => simp [distinct]
  | cons y ys ih =>
      simp only [distinct]
      by_cases h : y ∈ ys
      · rw [if_pos h]
        simp only [List.mem_cons, ih]
        constructor
        · exact Or.inr
        · rintro (rfl | hx)
          · exact h
          · exact hx
      · rw [if_neg h]
        simp [List.mem_cons, ih]

theorem sublist_distinct {α : Type} [DecidableEq α] (l : List α) :
    List.Sublist (distinct l) l := by
  induction l with
  | nil => simp [distinct]
  | cons y ys ih =>
      simp only [distinct]
      by_cases h : y ∈ ys
      · rw [if_pos h]
        exact ih.cons y
      · rw [if_neg h]
        exact ih.cons₂ y

theorem nodup_distinct {α : Type} [DecidableEq α] (l : List α) :
    (distinct l).Nodup := by
  induction l with
  | nil => simp [distinct]
  | cons y ys ih =>
      simp only [distinct]
      by_cases h : y ∈ ys
      · rw [if_pos h]; exact ih
      · rw [if_neg h]
        refine List.nodup_cons.mpr ⟨?_, ih⟩
        intro hy
        exact h ((mem_distinct y ys).mp hy)

theorem pairwise_distinct {α : Type} [DecidableEq α] (R : α → α → Prop)
    (l : List α) (h : l.Pairwise R) : (distinct l).Pairwise R :=
  List.Pairwise.sublist (sublist_distinct l) h

theorem find?_append_of_none {α : Type} (p : α → Bool) (l l' : List α)
    (h : l.find? p = none) : (l ++ l').find? p = l'.find? p := by
  induction l with
  | nil => rfl
  | cons x xs ih =>
      rw [List.find?_cons] at h
      rcases hx : p x with _ | _
      · rw [hx] at h
        rw [List.cons_append, List.find?_cons, hx]
        exact ih h
      · rw [hx] at h
        exact absurd h (by simp)

theorem mem_addTag (r : Recipe) (tid t : Nat) :
    t ∈ (r.addTag tid).tags ↔ t ∈ r.tags ∨ t = tid := by
  unfold Recipe.addTag
  by_cases h : tid ∈ r.tags
  · rw [if_pos h]
    constructor
    · exact Or.inl
    · rintro (h' | rfl)
      · exact h'
      · exact h
  · rw [if_neg h]
    simp [List.mem_append]

theorem nodup_addTag (r : Recipe) (tid : Nat) (h : r.tags.Nodup) :
    (r.addTag tid).tags.Nodup := by
  unfold Recipe.addTag
  by_cases hm : tid ∈ r.tags
  · rw [if_pos hm]; exact h
  · rw [if_neg hm]
    simpa using List.Nodup.append h (List.nodup_singleton tid)
      (by simpa using hm)

theorem mem_tags_getOrCreateTags (db : DB) (u : Nat) (specs : List String)
    (r : Recipe) (tid : Nat) :
    tid ∈ ((getOrCreateTags db u specs r).2).tags ↔
      tid ∈ r.tags ∨ tid ∈ resolveIds db u specs := by
  induction specs generalizing db r with
  | nil => simp [getOrCreateTags, resolveIds]
  | cons n rest ih =>
      simp only [getOrCreateTags, resolveIds]
      rw [ih, mem_addTag, List.mem_cons]
      tauto

theorem nodup_tags_getOrCreateTags (db : DB) (u : Nat) (specs : List String)
    (r : Recipe) (h : r.tags.Nodup) :
    ((getOrCreateTags db u specs r).2).tags.Nodup := by
  induction specs generalizing db r with
  | nil => simpa [getOrCreateTags]
  | cons n rest ih =>
      simp only [getOrCreateTags]
      exact ih _ _ (nodup_addTag _ _ h)

theorem getAttr_addTag (r : Recipe) (tid : Nat) (k : String) :
    getAttr (r.addTag tid) k = getAttr r k := by
  unfold Recipe.addTag
  by_cases h : tid ∈ r.tags
  · rw [if_pos h]
  · rw [if_neg h]
    unfold getAttr
    rfl

theorem getAttr_getOrCreateTags (db : DB) (u : Nat) (specs : List String)
    (r : Recipe) (k : String) :
    getAttr ((getOrCreateTags db u specs r).2) k = getAttr r k := by
  induction specs generalizing db r with
  | nil => simp [getOrCreateTags]
  | cons n rest ih =>
      simp only [getOrCreateTags]
      rw [ih, getAttr_addTag]

theorem tags_setAttr (r : Recipe) (k : String) (v : FieldVal) :
    (setAttr r k v).tags = r.tags := by
  unfold setAttr
  split <;> rfl

theorem tags_foldl_setAttr (l : List (String × FieldVal)) (r : Recipe) :
    (l.foldl (fun r kv => setAttr r kv.1 kv.2) r).tags = r.tags := by
  induction l generalizing r with
  | nil => rfl
  | cons kv rest ih => rw [List.foldl_cons, ih, tags_setAttr]

theorem pairwise_imp_of_mem {α : Type} {R S : α → α → Prop} {l : List α}
    (H : ∀ a b, a ∈ l → b ∈ l → R a b → S a b) (h : l.Pairwise R) :
    l.Pairwise S := by
  induction l with
  | nil => exact List.Pairwise.nil
  | cons x xs ih =>
      rcases List.pairwise_cons.mp h with ⟨hx, hxs⟩
      refine List.pairwise_cons.mpr ⟨?_, ?_⟩
      · intro y hy
        exact H x y (List.mem_cons_self x xs) (List.mem_cons_of_mem _ hy)
          (hx y hy)
      · exact ih (fun a b ha hb =>
          H a b (List.mem_cons_of_mem _ ha) (List.mem_cons_of_mem _ hb)) hxs

theorem pairwise_and {α : Type} {R S : α → α → Prop} {l : List α}
    (h1 : l.Pairwise R) (h2 : l.Pairwise S) :
    l.Pairwise (fun a b => R a b ∧ S a b) := by
  induction l with
  | nil => exact List.Pairwise.nil
  | cons x xs ih =>
      rcases List.pairwise_cons.mp h1 with ⟨hx1, hxs1⟩
      rcases List.pairwise_cons.mp h2 with ⟨hx2, hxs2⟩
      exact List.pairwise_cons.mpr
        ⟨fun y hy => ⟨hx1 y hy, hx2 y hy⟩, ih hxs1 hxs2⟩

theorem mem_joinFilter (ids : List Int) (base : List Recipe) (x : Recipe) :
    (x ∈ base.flatMap fun r =>
        (r.tags.filter (fun t : Nat => (t : Int) ∈ ids)).map fun _ => r) ↔
      x ∈ base ∧ ∃ tid : Nat, tid ∈ x.tags ∧ (tid : Int) ∈ ids := by
  simp only [List.mem_flatMap, List.mem_map, List.mem_filter]
  constructor
  · rintro ⟨r, hr, tid, ⟨htag, hdec⟩, rfl⟩
    exact ⟨hr, tid, htag, by simpa using hdec⟩
  · rintro ⟨hx, tid, htag, hin⟩
    exact ⟨x, hx, tid, ⟨htag, by simpa using hin⟩, rfl⟩

theorem mem_scopedResult (base : List Recipe) (u : Nat) (x : Recipe) :
    x ∈ distinct (sortByIdDesc (base.filter (fun r => r.user == u))) ↔
      x ∈ base ∧ x.user = u := by
  rw [mem_distinct, sortByIdDesc, mem_sortLe, List.mem_filter]
  simp

theorem recipeQueryset_none_eq (db : DB) (u : Nat) :
    recipeQueryset db u none =
      some (distinct (sortByIdDesc (db.recipes.filter (fun r => r.user == u)))) :=
  rfl

theorem recipeQueryset_empty_eq (db : DB) (u : Nat) :
    recipeQueryset db u (some "") = recipeQueryset db u none := by
  simp [recipeQueryset]

theorem recipeQueryset_filtered_eq (db : DB) (u : Nat) (s : String)
    (ids : List Int) (hs : s ≠ "") (hp : paramsToIntList s = some ids) :
    recipeQueryset db u (some s) =
      some (distinct (sortByIdDesc
        (((db.recipes.flatMap fun r =>
            (r.tags.filter (fun t : Nat => (t : Int) ∈ ids)).map fun _ => r)).filter
          (fun r => r.user == u)))) := by
  simp only [recipeQueryset]
  rw [if_pos hs, hp]

theorem recipeQueryset_parse_error (db : DB) (u : Nat) (s : String)
    (hs : s ≠ "") (hp : paramsToIntList s = none) :
    recipeQueryset db u (some s) = none := by
  simp only [recipeQueryset]
  rw [if_pos hs, hp]

theorem recipeQueryset_some_mem (db : DB) (u : Nat) (p : Option String)
    (l : List Recipe) (h : recipeQueryset db u p = some l) (x : Recipe)
    (hx : x ∈ l) : x ∈ db.recipes ∧ x.user = u := by
  cases p with
  | none =>
      rw [recipeQueryset_none_eq] at h
      cases h
      exact (mem_scopedResult db.recipes u x).mp hx
  | some s =>
      by_cases hs : s = ""
      · subst hs
        rw [recipeQueryset_empty_eq, recipeQueryset_none_eq] at h
        cases h
        exact (mem_scopedResult db.recipes u x).mp hx
      · cases hp : paramsToIntList s with
        | none =>
            rw [recipeQueryset_parse_error db u s hs hp] at h
            cases h
        | some ids =>
            rw [recipeQueryset_filtered_eq db u s ids hs hp] at h
            cases h
            have := (mem_scopedResult _ u x).mp hx
            exact ⟨((mem_joinFilter ids db.recipes x).mp this.1).1, this.2⟩

theorem mem_tagQueryset (db : DB) (u : Nat) (t : Tag) :
    t ∈ tagQueryset db u ↔ t ∈ db.tags ∧ t.user = u := by
  rw [tagQueryset, sortByNameDesc, mem_sortLe, List.mem_filter]
  simp

theorem getAttr_setAttr_same (r : Recipe) (k : String) (v : FieldVal)
    (h : wellTyped k v = true) : getAttr (setAttr r k v) k = some v := by
  unfold wellTyped at h
  split at h
  · rfl
  · rfl
  · rfl
  · rfl
  · rfl
  · exact absurd h (by simp)

theorem getAttr_setAttr_other (r : Recipe) (k k2 : String) (v : FieldVal)
    (h : k2 ≠ k) : getAttr (setAttr r k2 v) k = getAttr r k := by
  unfold setAttr
  split
  · unfold getAttr
    split <;> first | rfl | exact absurd rfl h
  · unfold getAttr
    split <;> first | rfl | exact absurd rfl h
  · unfold getAttr
    split <;> first | rfl | exact absurd rfl h
  · unfold getAttr
    split <;> first | rfl | exact absurd rfl h
  · unfold getAttr
    split <;> first | rfl | exact absurd rfl h
  · rfl

theorem getAttr_foldl_setAttr_not_mem (l : List (String × FieldVal))
    (r : Recipe) (k : String) (h : k ∉ l.map Prod.fst) :
    getAttr (l.foldl (fun r kv => setAttr r kv.1 kv.2) r) k = getAttr r k := by
  induction l generalizing r with
  | nil => rfl
  | cons kv rest ih =>
      rw [List.foldl_cons]
      have hk : kv.1 ≠ k := by
        intro e
        exact h (by simp [List.map_cons, e])
      have hrest : k ∉ rest.map Prod.fst := by
        intro hm
        exact h (by simp [List.map_cons, hm])
      rw [ih _ hrest]
      exact getAttr_setAttr_other r k kv.1 kv.2 hk

theorem getAttr_foldl_setAttr_mem (l : List (String × FieldVal)) (r : Recipe)
    (k : String) (v : FieldVal) (hnd : (l.map Prod.fst).Nodup)
    (hmem : (k, v) ∈ l) (ht : wellTyped k v = true) :
    getAttr (l.foldl (fun r kv => setAttr r kv.1 kv.2) r) k = some v := by
  induction l generalizing r with
  | nil => cases hmem
  | cons kv rest ih =>
      rw [List.foldl_cons]
      rw [List.map_cons, List.nodup_cons] at hnd
      rcases List.mem_cons.mp hmem with rfl | hm
      · have hrest : k ∉ rest.map Prod.fst := hnd.1
        rw [getAttr_foldl_setAttr_not_mem rest _ k hrest]
        exact getAttr_setAttr_same r k v ht
      · exact ih _ hnd.2 hm

theorem mapM_pyIntTok_eq_none (l : List (List Char)) (tok : List Char)
    (ha : tok ∈ l) (hf : pyIntTok tok = none) : l.mapM pyIntTok = none := by
  induction l with
  | nil => cases ha
  | cons x xs ih =>
      rw [List.mapM_cons]
      rcases List.mem_cons.mp ha with rfl | hm
      · rw [hf]
        rfl
      · cases hx : pyIntTok x with
        | none => rfl
        | some v =>
            rw [ih hm]
            rfl

/-- C10: the list action's outward representation has exactly the fields id,
title, time_minutes, price, link and tags — description and image are absent
— while the retrieve, create, update and partial_update actions use those
fields plus description and image. -/
theorem C10_serializer_field_selection :
    serializerFieldsFor ("list") =
        ["id", "title", "time_minutes", "price", "link", "tags"]
    ∧ RecipeSerializer.fields.contains ("description") = false
    ∧ RecipeSerializer.fields.contains ("image") = false
    ∧ serializerFieldsFor ("retrieve") =
        serializerFieldsFor ("list") ++ ["description", "image"]
    ∧ serializerFieldsFor ("create") =
        serializerFieldsFor ("list") ++ ["description", "image"]
    ∧ serializerFieldsFor ("update") =
        serializerFieldsFor ("list") ++ ["description", "image"]
    ∧ serializerFieldsFor ("partial_update") =
        serializerFieldsFor ("list") ++ ["description", "image"] := by
  refine ⟨rfl, ?_, ?_, rfl, rfl, rfl, rfl⟩ <;> decide

/-- C9: an empty `tags` query parameter is falsy and treated as absent — the
full owner-scoped list is returned — while a present, non-empty parameter
containing a token that does not parse as an integer makes the `int`
conversion raise (modelled as `none`), not a validation failure or an empty
result. -/
theorem C9_tags_param_edge_cases (db : DB) (u : Nat) (s : String) :
    recipeQueryset db u (some "") = recipeQueryset db u none
    ∧ (∀ l, recipeQueryset db u none = some l →
        ∀ r : Recipe, r ∈ l ↔ r ∈ db.recipes ∧ r.user = u)
    ∧ (s ≠ "" → (∃ tok, tok ∈ commaSplit s.data [] ∧ pyIntTok tok = none) →
        recipeQueryset db u (some s) = none) := by
  refine ⟨recipeQueryset_empty_eq db u, ?_, ?_⟩
  · intro l hl r
    rw [recipeQueryset_none_eq] at hl
    cases hl
    exact mem_scopedResult db.recipes u r
  · rintro hs ⟨tok, htok, hbad⟩
    refine recipeQueryset_parse_error db u s hs ?_
    exact mapM_pyIntTok_eq_none _ tok htok hbad

/-- Witness for C9 at a concrete store and the parameter `1,abc`. -/
theorem C9_witness : recipeQueryset Wdb 0 (some "1,abc") = none := by
  refine (C9_tags_param_edge_cases Wdb 0 "1,abc").2.2 (by decide) ?_
  exact ⟨['a', 'b', 'c'], by decide, by decide⟩

/-- C7: a registration whose password is shorter than 5 characters fails with
a ValidationError and persists no user row — the credential store is
unchanged, so an email absent before is still absent afterwards. -/
theorem C7_short_password_rejected (store : List UserRec)
    (email password name : String) (hp : password.length < 5) :
    createUser store email password name = .error .validationError
    ∧ storeAfterRegister store email password name = store
    ∧ ((∀ u, u ∈ store → u.email ≠ email.toLower) →
        ∀ u, u ∈ storeAfterRegister store email password name →
          u.email ≠ email.toLower) := by
  have h1 : createUser store email password name = .error .validationError := by
    simp only [createUser]
    split_ifs with h1 h2 h3
    all_goals rfl
  have h2 : storeAfterRegister store email password name = store := by
    unfold storeAfterRegister
    rw [h1]
  refine ⟨h1, h2, ?_⟩
  intro hfresh u hu
  rw [h2] at hu
  exact hfresh u hu

/-- Witness for C7: the too-short password of the repository's own test. -/
theorem C7_witness :
    createUser [] "test@example.com" "pw" "Test Name" =
      .error .validationError :=
  (C7_short_password_rejected [] "test@example.com" "pw" "Test Name"
    (by decide)).1

/-- C8: uploading to an owned recipe answers 200 with the updated
representation when the payload decodes as an image, and answers 400 leaving
the store — hence the recipe's image — untouched when it does not decode or
is missing. -/
theorem C8_upload_image (db : DB) (u rid : Nat) (r : Recipe)
    (img : ImageFile) (h : getRecipe db u rid = some r) :
    (img.decodable = true →
      uploadImage db u rid (some img) =
        (.ok { r with image := some img.ref },
         db.saveRecipe { r with image := some img.ref }))
    ∧ (img.decodable = false →
      uploadImage db u rid (some img) = (.badRequest, db))
    ∧ uploadImage db u rid none = (.badRequest, db) := by
  refine ⟨?_, ?_, ?_⟩
  · intro hd
    simp only [uploadImage, h, hd, if_true]
  · intro hd
    simp only [uploadImage, h, hd]
    rfl
  · simp only [uploadImage, h]

/-- Witness for C8: an undecodable payload on an owned recipe. -/
theorem C8_witness :
    uploadImage Wdb 0 0 (some ⟨false, "bad"⟩) = (.badRequest, Wdb) :=
  (C8_upload_image Wdb 0 0 Wrec1 ⟨false, "bad"⟩ (by decide)).2.1 rfl

theorem getAttr_clearTags (r : Recipe) (k : String) :
    getAttr { r with tags := [] } k = getAttr r k := by
  unfold getAttr
  split <;> rfl

theorem getOrCreate_find (db : DB) (u : Nat) (n : String) :
    ∃ t : Tag, (Tag.getOrCreate db u n).1.tags.find?
        (fun t => t.user == u && t.name == n) = some t
      ∧ t.id = (Tag.getOrCreate db u n).2 := by
  unfold Tag.getOrCreate
  cases hf : db.tags.find? (fun t => t.user == u && t.name == n) with
  | some t => exact ⟨t, hf, rfl⟩
  | none =>
      refine ⟨⟨db.nextTagId, u, n⟩, ?_, rfl⟩
      rw [find?_append_of_none _ _ _ hf]
      simp [List.find?]

/-- C2: an update whose payload carries the tags key (even an empty list)
first clears the association and then attaches exactly the tags resolved from
the payload — so `tags: []` leaves zero tags — while a payload without the
tags key leaves the association untouched. -/
theorem C2_update_tags (db : DB) (u : Nat) (inst : Recipe)
    (vd : UpdatePayload) :
    (∀ specs, vd.tagSpecs = some specs →
      ∀ tid, tid ∈ ((RecipeSerializer.update db u inst vd).2.1).tags ↔
        tid ∈ resolveIds db u specs)
    ∧ (vd.tagSpecs = some [] →
        ((RecipeSerializer.update db u inst vd).2.1).tags = [])
    ∧ (vd.tagSpecs = none →
        ((RecipeSerializer.update db u inst vd).2.1).tags = inst.tags) := by
  refine ⟨?_, ?_, ?_⟩
  · intro specs hs tid
    simp only [RecipeSerializer.update, hs, tags_foldl_setAttr]
    rw [mem_tags_getOrCreateTags]
    simp
  · intro hs
    simp only [RecipeSerializer.update, hs, tags_foldl_setAttr]
    rfl
  · intro hs
    simp only [RecipeSerializer.update, hs, tags_foldl_setAttr]

/-- Witness for C2: reassigning the tags of a concrete recipe. -/
theorem C2_witness :
    (2 ∈ ((RecipeSerializer.update Wdb 0 Wrec1
        ⟨some ["lunch"], []⟩).2.1).tags ↔
      2 ∈ resolveIds Wdb 0 ["lunch"]) :=
  (C2_update_tags Wdb 0 Wrec1 ⟨some ["lunch"], []⟩).1 ["lunch"] rfl 2

/-- C4: tag resolution is idempotent — a second get-or-create with the same
(owner, name) inserts no second row and returns the first call's identity —
and attachment has set semantics: the association stays duplicate-free, so
duplicate names in the input collapse to one attachment. -/
theorem C4_get_or_create_idempotent (db : DB) (u : Nat) (n : String)
    (specs : List String) (r : Recipe) (hnd : r.tags.Nodup) :
    Tag.getOrCreate (Tag.getOrCreate db u n).1 u n = Tag.getOrCreate db u n
    ∧ ((getOrCreateTags db u specs r).2).tags.Nodup := by
  refine ⟨?_, nodup_tags_getOrCreateTags db u specs r hnd⟩
  obtain ⟨t, hfind, hid⟩ := getOrCreate_find db u n
  set p := Tag.getOrCreate db u n with hp
  unfold Tag.getOrCreate
  rw [hfind]
  show (p.1, t.id) = p
  rw [hid]

/-- Witness for C4: resolving the same new name twice. -/
theorem C4_witness :
    Tag.getOrCreate (Tag.getOrCreate Wdb 0 "thai").1 0 "thai" =
      Tag.getOrCreate Wdb 0 "thai"
    ∧ ((getOrCreateTags Wdb 0 ["thai", "thai"] Wrec1).2).tags.Nodup :=
  C4_get_or_create_idempotent Wdb 0 "thai" ["thai", "thai"] Wrec1 (by decide)

/-- C6: every scalar field present in the update payload overwrites the
corresponding attribute, every absent scalar field keeps exactly its prior
value, and the instance is persisted exactly once. -/
theorem C6_update_scalar_merge (db : DB) (u : Nat) (inst : Recipe)
    (vd : UpdatePayload) (hnd : (vd.scalars.map Prod.fst).Nodup)
    (ht : ∀ kv, kv ∈ vd.scalars → wellTyped kv.1 kv.2 = true) :
    (∀ k v, (k, v) ∈ vd.scalars →
      getAttr ((RecipeSerializer.update db u inst vd).2.1) k = some v)
    ∧ (∀ k, k ∉ vd.scalars.map Prod.fst →
      getAttr ((RecipeSerializer.update db u inst vd).2.1) k = getAttr inst k)
    ∧ (RecipeSerializer.update db u inst vd).2.2 = 1 := by
  have hbase : ∀ k, getAttr ((match vd.tagSpecs with
      | some specs => getOrCreateTags db u specs { inst with tags := [] }
      | none => (db, inst)).2) k = getAttr inst k := by
    intro k
    cases vd.tagSpecs with
    | some specs =>
        show getAttr ((getOrCreateTags db u specs
          { inst with tags := [] }).2) k = getAttr inst k
        rw [getAttr_getOrCreateTags]
        exact getAttr_clearTags inst k
    | none => rfl
  refine ⟨?_, ?_, rfl⟩
  · intro k v hkv
    exact getAttr_foldl_setAttr_mem _ _ k v hnd hkv (ht (k, v) hkv)
  · intro k hk
    show getAttr (vd.scalars.foldl (fun r kv => setAttr r kv.1 kv.2) _) k =
      getAttr inst k
    rw [getAttr_foldl_setAttr_not_mem _ _ k hk]
    exact hbase k

/-- Witness for C6: a payload setting the title of a concrete recipe. -/
theorem C6_witness :
    getAttr ((RecipeSerializer.update Wdb 0 Wrec1
        ⟨none, [("title", .s "new"), ("price", .i 999)]⟩).2.1) ("title") =
      some (.s "new") :=
  (C6_update_scalar_merge Wdb 0 Wrec1
      ⟨none, [("title", .s "new"), ("price", .i 999)]⟩
      (by decide) (by decide)).1 ("title") (.s "new") (by decide)

theorem idDescTotal (a b : Recipe) :
    decide (b.id ≤ a.id) = true ∨ decide (a.id ≤ b.id) = true := by
  rcases Nat.le_total b.id a.id with h | h
  · exact Or.inl (decide_eq_true h)
  · exact Or.inr (decide_eq_true h)

theorem idDescTrans (a b c : Recipe) (h1 : decide (b.id ≤ a.id) = true)
    (h2 : decide (c.id ≤ b.id) = true) : decide (c.id ≤ a.id) = true :=
  decide_eq_true (Nat.le_trans (of_decide_eq_true h2) (of_decide_eq_true h1))

theorem pairwise_sortByIdDesc (l : List Recipe) :
    (sortByIdDesc l).Pairwise (fun a b => b.id ≤ a.id) := by
  unfold sortByIdDesc
  have h := pairwise_sortLe (fun a b : Recipe => decide (b.id ≤ a.id))
    idDescTotal idDescTrans l
  exact h.imp (fun hx => of_decide_eq_true hx)

/-- C3: ownership isolation — a recipe or tag of one user never appears in
another user's list or filter results, and the detail lookup of a foreign id
returns the same NotFound (`none`) a missing id would, never a distinct
permission error. -/
theorem C3_ownership_isolation (db : DB) (u1 u2 : Nat) (r : Recipe) (t : Tag)
    (p : Option String) (l : List Recipe) (hwf : db.WF) (hne : u1 ≠ u2)
    (hr : r ∈ db.recipes) (hru : r.user = u1) (ht : t ∈ db.tags)
    (htu : t.user = u1) :
    (recipeQueryset db u2 p = some l → r ∉ l)
    ∧ getRecipe db u2 r.id = none
    ∧ getTag db u2 t.id = none
    ∧ t ∉ tagQueryset db u2 := by
  refine ⟨?_, ?_, ?_, ?_⟩
  · intro hq hmem
    have h2 := (recipeQueryset_some_mem db u2 p l hq r hmem).2
    exact hne (hru.symm.trans h2)
  · rw [getRecipe, List.find?_eq_none]
    intro x hx hbeq
    rw [List.mem_filter] at hx
    have hxid : x.id = r.id := by simpa using hbeq
    have hxr : x = r := List.inj_on_of_nodup_map hwf.1 hx.1 hr hxid
    have hxu : x.user = u2 := by simpa using hx.2
    exact hne (hru.symm.trans (hxr ▸ hxu))
  · rw [getTag, List.find?_eq_none]
    intro x hx hbeq
    rw [List.mem_filter] at hx
    have hxid : x.id = t.id := by simpa using hbeq
    have hxt : x = t := List.inj_on_of_nodup_map hwf.2 hx.1 ht hxid
    have hxu : x.user = u2 := by simpa using hx.2
    exact hne (htu.symm.trans (hxt ▸ hxu))
  · intro hmem
    have h2 := ((mem_tagQueryset db u2 t).mp hmem).2
    exact hne (htu.symm.trans h2)

/-- Witness for C3: user 1 looking up user 0's recipe and tag ids. -/
theorem C3_witness :
    getRecipe Wdb 1 Wrec1.id = none ∧ getTag Wdb 1 Wtag1.id = none := by
  have h := C3_ownership_isolation Wdb 0 1 Wrec1 Wtag1 none [Wrec2]
    (by decide) (by decide) (by decide) rfl (by decide) rfl
  exact ⟨h.2.1, h.2.2.1⟩

/-- C5: a list request whose `tags` parameter parses to a list of ids returns
exactly the caller's recipes carrying at least one requested tag, each
exactly once, ordered by id descending. -/
theorem C5_filter_by_tags (db : DB) (u : Nat) (s : String) (ids : List Int)
    (l : List Recipe) (hwf : db.WF) (hs : s ≠ "")
    (hp : paramsToIntList s = some ids)
    (hl : recipeQueryset db u (some s) = some l) :
    (∀ r : Recipe, r ∈ l ↔
      r ∈ db.recipes ∧ r.user = u ∧
        ∃ tid : Nat, tid ∈ r.tags ∧ (tid : Int) ∈ ids)
    ∧ l.Nodup
    ∧ l.Pairwise (fun a b => b.id < a.id) := by
  rw [recipeQueryset_filtered_eq db u s ids hs hp] at hl
  cases hl
  refine ⟨?_, nodup_distinct _, ?_⟩
  · intro r
    rw [mem_scopedResult, mem_joinFilter]
    tauto
  · refine pairwise_imp_of_mem ?_ (pairwise_and (nodup_distinct _)
      (pairwise_distinct _ _ (pairwise_sortByIdDesc _)))
    intro a b ha hb hab
    have ha' := (mem_scopedResult _ _ _).mp ha
    have hb' := (mem_scopedResult _ _ _).mp hb
    have ha2 := ((mem_joinFilter ids db.recipes a).mp ha'.1).1
    have hb2 := ((mem_joinFilter ids db.recipes b).mp hb'.1).1
    have hne : b.id ≠ a.id := fun e =>
      hab.1 (List.inj_on_of_nodup_map hwf.1 ha2 hb2 e.symm)
    exact Nat.lt_of_le_of_ne hab.2 hne

/-- Witness for C5 on the concrete store and the parameter `0, 9`. -/
theorem C5_witness :
    (Wrec1 ∈ [Wrec1] ↔ Wrec1 ∈ Wdb.recipes ∧ Wrec1.user = 0 ∧
      ∃ tid : Nat, tid ∈ Wrec1.tags ∧ (tid : Int) ∈ [(0 : Int), 9]) :=
  (C5_filter_by_tags Wdb 0 "0, 9" [0, 9] [Wrec1] (by decide) (by decide)
    (by decide) (by decide)).1 Wrec1

/-- C1, behavior of the code at the failing input of the repository's test
`test_filter_tags_assigned_to_recipes`: with `assigned_only` set, the listing
still returns the tag `lunch` (id 1) although no recipe references it —
`TagViewSet.get_queryset` never reads the parameter — so the listing is not
the assigned-only restriction the claim describes. -/
theorem C1_assigned_only_ignored :
    tagList C1db 0 (some "1") = [C1tagLunch, C1tagBreakfast]
    ∧ (C1db.recipes.all fun r => !(r.tags.contains C1tagLunch.id)) = true
    ∧ decide (tagList C1db 0 (some "1") = assignedOnlyTagsSpec C1db 0) =
        false := by
  refine ⟨by decide, by decide, by decide⟩
